import Mathlib

/-!
Verification development for the BalTrj ballistic-trajectory script
(src/BalTrj.py): a 2D projectile simulation with quadratic air drag.

The script's numeric data is embedded exactly, with IEEE doubles modelled
as exact numbers: the sample table rows (numpy array rows
[vx, vy, x, y] plus the matching time-grid entry) are rational records,
scipy's Lagrange interpolation is the standard 3-point Lagrange formula
over the rationals, and the two square-root / arctangent post-processing
steps are real-valued functions on the rational results.  The table-walk
loop (lines 49-62), which simultaneously finds the apex bracket and the
truncation index, is embedded as a fuel-indexed recursion whose outcomes
distinguish a clean halt via the break statement from the IndexError that
the look-ahead access yint[n+1] raises when the row after the current one
does not exist.  Python/numpy negative indexing (a[-1] is the last row)
is modelled by pyGet.
-/

/-! ## Physical constants of the run (lines 12-24 of the source) -/

/-- Launch velocity in m/s (`vel = 100.0`). -/
def vel : ℚ := 100

/-- Projectile terminal velocity in m/s (`tv = 150.0`). -/
def tv : ℚ := 150

/-- Acceleration of gravity in m/s² (`gc = 9.80665`). -/
def gc : ℚ := 980665 / 100000

/-- Atmospheric drag coefficient (`dc = gc/tv**2`). -/
def dc : ℚ := gc / tv ^ 2

/-! ## The equation of motion (function `derv`, lines 29-39) -/

/-- Velocity magnitude: `np.linalg.norm` of the 2-vector `[a, b]`,
i.e. the Euclidean norm √(a² + b²). -/
noncomputable def speedOf (a b : ℝ) : ℝ := Real.sqrt (a ^ 2 + b ^ 2)

/-- `derv(yint, t)`: the four differentials.  `vv = [vx, vy]`,
`vn = norm vv`, `vu = vv/vn`, `vd = (-dc*vn**2)*vu`, `va = vg + vd`
with `vg = [0, -gc]`; returns `[va0, va1, vx, vy]`. -/
noncomputable def derv (vx vy px py : ℝ) : ℝ × ℝ × ℝ × ℝ :=
  let vn := speedOf vx vy
  let vux := vx / vn
  let vuy := vy / vn
  let vdx := (-(dc : ℝ) * vn ^ 2) * vux
  let vdy := (-(dc : ℝ) * vn ^ 2) * vuy
  ((0 : ℝ) + vdx, -(gc : ℝ) + vdy, vx, vy)

/-! ## The sample table -/

/-- One row of the solution table: the four state components of a row of
`yint` (columns 0..3: vx, vy, x, y) together with the matching entry of
the time grid `t`. -/
structure Samp where
  vx : ℚ
  vy : ℚ
  x : ℚ
  y : ℚ
  t : ℚ
deriving DecidableEq

/-! ## The table walk (lines 49-62) -/

/-- Outcome of the table walk.  `brk n m`: the `break` fired at row `n`
with apex counter `m` (rows 0..n-1 were printed).  `idxErr n m`: the
apex look-ahead `yint[n+1,1]` raised IndexError at row `n` (rows 0..n-1
were printed, then the process died).  `done n m`: the for-loop ran out
of rows without breaking (only possible for an empty table). -/
inductive ScanOut where
  | brk (n m : Nat)
  | idxErr (n m : Nat)
  | done (n m : Nat)
deriving DecidableEq

/-- Sign-change test at row `k`: both rows `k` and `k+1` exist and
`yint[k,1]*yint[k+1,1] < 0`. -/
def scB (tbl : List Samp) (k : Nat) : Bool :=
  match tbl[k]?, tbl[k + 1]? with
  | some r, some r2 => decide (r.vy * r2.vy < 0)
  | _, _ => false

/-- One step of the loop body per unit of fuel; `n` is the line counter,
`m` the highest-altitude counter.  The apex check (which reads row `n+1`)
runs before the break test, exactly as in the source. -/
def scanGo (tbl : List Samp) : Nat → Nat → Nat → ScanOut
  | 0, n, m => ScanOut.done n m
  | fuel + 1, n, m =>
    match tbl[n]?, tbl[n + 1]? with
    | some r, some r2 =>
      let m2 := if r.vy * r2.vy < 0 then n else m
      if r.y < 0 then ScanOut.brk n m2 else scanGo tbl fuel (n + 1) m2
    | some _, none => ScanOut.idxErr n m
    | none, _ => ScanOut.done n m

/-- The full walk: `n = 0`, `m = 0`, at most `len(yint)` iterations. -/
def scan (tbl : List Samp) : ScanOut := scanGo tbl tbl.length 0 0

/-- Row index at which the walk stopped. -/
def stopN : ScanOut → Nat
  | ScanOut.brk n _ => n
  | ScanOut.idxErr n _ => n
  | ScanOut.done n _ => n

/-- Apex counter value when the walk stopped. -/
def stopM : ScanOut → Nat
  | ScanOut.brk _ m => m
  | ScanOut.idxErr _ m => m
  | ScanOut.done _ m => m

/-- The rows actually printed to the output table: exactly the rows the
loop processed before stopping. -/
def retained (tbl : List Samp) : List Samp := tbl.take (stopN (scan tbl))

/-! ## Quadratic Lagrange interpolation
(`scipy.interpolate.lagrange` on three points, used at lines 73-111) -/

/-- A quadratic polynomial a·X² + b·X + c. -/
structure Quad where
  a : ℚ
  b : ℚ
  c : ℚ
deriving DecidableEq

/-- The 3-point Lagrange interpolation polynomial
Σⱼ yⱼ · Πₖ≠ⱼ (X - xₖ)/(xⱼ - xₖ), with its coefficients expanded.
`scipy.interpolate.lagrange` builds exactly this polynomial;
`p[1]` is the coefficient `b` and `p[2]` the coefficient `a`. -/
def lagrange3 (x0 x1 x2 y0 y1 y2 : ℚ) : Quad :=
  let d0 := (x0 - x1) * (x0 - x2)
  let d1 := (x1 - x0) * (x1 - x2)
  let d2 := (x2 - x0) * (x2 - x1)
  { a := y0 / d0 + y1 / d1 + y2 / d2
    b := -(y0 * (x1 + x2) / d0 + y1 * (x0 + x2) / d1 + y2 * (x0 + x1) / d2)
    c := y0 * x1 * x2 / d0 + y1 * x0 * x2 / d1 + y2 * x0 * x1 / d2 }

/-- Evaluation of a quadratic. -/
def Quad.eval (q : Quad) (xv : ℚ) : ℚ := q.a * xv ^ 2 + q.b * xv + q.c

/-- `q` passes through the three points (x0,y0), (x1,y1), (x2,y2). -/
def interpolates (q : Quad) (x0 x1 x2 y0 y1 y2 : ℚ) : Prop :=
  q.eval x0 = y0 ∧ q.eval x1 = y1 ∧ q.eval x2 = y2

/-! ## Python/numpy indexing -/

/-- Python index resolution on a container of length `k`: a non-negative
index must be below `k`; a negative index `i` addresses position `k + i`
when that is non-negative; anything else raises IndexError (`none`). -/
def pyIdx (k : Nat) (i : ℤ) : Option Nat :=
  if 0 ≤ i then (if i < (k : ℤ) then some i.toNat else none)
  else (if 0 ≤ i + (k : ℤ) then some (i + (k : ℤ)).toNat else none)

/-- Row lookup with Python semantics (negative indices wrap from the
end). -/
def pyGet (tbl : List Samp) (i : ℤ) : Option Samp :=
  match pyIdx tbl.length i with
  | some j => tbl[j]?
  | none => none

/-! ## Apex refinement (lines 64-91) -/

/-- The printed "Highest Point" line: time, velocity, angle, height,
distance. -/
structure EventRec where
  t : ℚ
  v : ℚ
  ang : ℚ
  alt : ℚ
  dist : ℚ
deriving DecidableEq

/-- The highest-point computation on the three bracket rows:
`phyx = lagrange(lhx, lhy)`, `hx = -phyx[1]/(2.0*phyx[2])`,
`hy = phyx(hx)`, `ht = phxt(hx)`, `hv = phxv(hx)`; the printed angle is
the literal `0.0`. -/
def apexOf (s0 s1 s2 : Samp) : EventRec :=
  let phyx := lagrange3 s0.x s1.x s2.x s0.y s1.y s2.y
  let hx := -phyx.b / (2 * phyx.a)
  let hy := phyx.eval hx
  let phxt := lagrange3 s0.x s1.x s2.x s0.t s1.t s2.t
  let ht := phxt.eval hx
  let phxv := lagrange3 s0.x s1.x s2.x s0.vx s1.vx s2.vx
  let hv := phxv.eval hx
  ⟨ht, hv, 0, hy, hx⟩

/-- Lines 65-68 fetch rows `m-1`, `m`, `m+1` (with Python indexing) and
lines 73-91 build the highest-point record from them; `none` models the
IndexError raised if a row does not exist. -/
def apexRefine (tbl : List Samp) (i : ℤ) : Option EventRec :=
  match pyGet tbl (i - 1), pyGet tbl i, pyGet tbl (i + 1) with
  | some s0, some s1, some s2 => some (apexOf s0 s1 s2)
  | _, _, _ => none

/-! ## Impact refinement (lines 93-119) -/

/-- The printed "Impact Point" line in its raw rational parts: impact
time `xit`, impact velocity components `ivx`/`ivy`, the literal altitude
`0.0`, and impact distance `xid`.  The derived speed `iv` and angle `ia`
are real-valued and defined separately below. -/
structure ImpactRec where
  t : ℚ
  ivx : ℚ
  ivy : ℚ
  alt : ℚ
  dist : ℚ
deriving DecidableEq

/-- The impact computation on the three bracket rows: four Lagrange fits
against altitude (`lgy` as abscissas) evaluated at `0.0`. -/
def impactOf (s0 s1 s2 : Samp) : ImpactRec :=
  let pfyx := lagrange3 s0.y s1.y s2.y s0.x s1.x s2.x
  let xid := pfyx.eval 0
  let pfyt := lagrange3 s0.y s1.y s2.y s0.t s1.t s2.t
  let xit := pfyt.eval 0
  let pfvx := lagrange3 s0.y s1.y s2.y s0.vx s1.vx s2.vx
  let ivx := pfvx.eval 0
  let pfvy := lagrange3 s0.y s1.y s2.y s0.vy s1.vy s2.vy
  let ivy := pfvy.eval 0
  ⟨xit, ivx, ivy, 0, xid⟩

/-- Lines 95-99 fetch rows `n-2`, `n-1`, `n` (with Python indexing) and
lines 101-119 build the impact record from them. -/
def impactRefine (tbl : List Samp) (i : ℤ) : Option ImpactRec :=
  match pyGet tbl (i - 2), pyGet tbl (i - 1), pyGet tbl i with
  | some s0, some s1, some s2 => some (impactOf s0 s1 s2)
  | _, _, _ => none

/-! ## Real-valued post-processing -/

/-- `np.degrees`: radians to degrees. -/
noncomputable def degOf (z : ℝ) : ℝ := z * (180 / Real.pi)

/-- Line 114: `ia = np.degrees(np.arctan(ivy/ivx))` — the single-argument
arctangent of the quotient. -/
noncomputable def iaOf (a b : ℝ) : ℝ := degOf (Real.arctan (b / a))

/-- Modelled from the spec: the two-argument arctangent `atan2(y, x)`
(the spec's impact-angle formula; the source has no atan2 call), in its
standard piecewise definition. -/
noncomputable def atan2 (yv xv : ℝ) : ℝ :=
  if 0 < xv then Real.arctan (yv / xv)
  else if xv < 0 ∧ 0 ≤ yv then Real.arctan (yv / xv) + Real.pi
  else if xv < 0 ∧ yv < 0 then Real.arctan (yv / xv) - Real.pi
  else if xv = 0 ∧ 0 < yv then Real.pi / 2
  else if xv = 0 ∧ yv < 0 then -(Real.pi / 2)
  else 0

/-! ## Helper lemmas -/

/-- With pairwise distinct abscissas the Lagrange quadratic passes
through its three data points. -/
theorem lagrange3_interp (x0 x1 x2 y0 y1 y2 : ℚ)
    (h01 : x0 ≠ x1) (h02 : x0 ≠ x2) (h12 : x1 ≠ x2) :
    interpolates (lagrange3 x0 x1 x2 y0 y1 y2) x0 x1 x2 y0 y1 y2 := by
  have d01 : x0 - x1 ≠ 0 := sub_ne_zero.mpr h01
  have d02 : x0 - x2 ≠ 0 := sub_ne_zero.mpr h02
  have d12 : x1 - x2 ≠ 0 := sub_ne_zero.mpr h12
  have d10 : x1 - x0 ≠ 0 := sub_ne_zero.mpr (Ne.symm h01)
  have d20 : x2 - x0 ≠ 0 := sub_ne_zero.mpr (Ne.symm h02)
  have d21 : x2 - x1 ≠ 0 := sub_ne_zero.mpr (Ne.symm h12)
  refine ⟨?_, ?_, ?_⟩ <;>
    · show _ = _
      simp only [lagrange3, Quad.eval]
      field_simp
      ring

/-- A non-negative in-range index resolves to the plain list lookup. -/
theorem pyGet_of_nonneg (tbl : List Samp) (i : ℤ) (h0 : 0 ≤ i)
    (h1 : i < (tbl.length : ℤ)) : pyGet tbl i = tbl[i.toNat]? := by
  simp [pyGet, pyIdx, h0, h1]

/-- A negative index that stays within range resolves to a lookup
counted from the end of the list. -/
theorem pyGet_of_neg (tbl : List Samp) (i : ℤ) (h0 : i < 0)
    (h1 : 0 ≤ i + (tbl.length : ℤ)) :
    pyGet tbl i = tbl[(i + (tbl.length : ℤ)).toNat]? := by
  simp [pyGet, pyIdx, not_le.mpr h0, h1]

/-- `scB` reduced when both rows exist. -/
theorem scB_eq (tbl : List Samp) (k : Nat) (r r2 : Samp)
    (h1 : tbl[k]? = some r) (h2 : tbl[k + 1]? = some r2) :
    scB tbl k = decide (r.vy * r2.vy < 0) := by
  simp [scB, h1, h2]

/-- Full characterization of a clean break of the walk started at row
`n` with apex counter `m`: the break row `j` is the first row at or
after `n` with negative altitude, its successor row exists, and the
final apex counter is the last sign-change index in `[n, j]` (or the
initial `m` if there is none). -/
theorem scanGo_brk_spec (tbl : List Samp) :
    ∀ fuel n m j m2, scanGo tbl fuel n m = ScanOut.brk j m2 →
      n ≤ j ∧ j + 1 < tbl.length ∧
      (∀ k r, n ≤ k → k < j → tbl[k]? = some r → 0 ≤ r.y) ∧
      (∀ r, tbl[j]? = some r → r.y < 0) ∧
      ((scB tbl m2 = true ∧ n ≤ m2 ∧ m2 ≤ j ∧
          ∀ k, m2 < k → k ≤ j → scB tbl k = false) ∨
        (m2 = m ∧ ∀ k, n ≤ k → k ≤ j → scB tbl k = false)) := by
  intro fuel
  induction fuel with
  | zero =>
    intro n m j m2 h
    simp [scanGo] at h
  | succ f ih =>
    intro n m j m2 h
    rcases hn : tbl[n]? with _ | r
    · rw [scanGo, hn] at h
      simp at h
    rcases hn2 : tbl[n + 1]? with _ | r2
    · rw [scanGo, hn, hn2] at h
      simp at h
    rw [scanGo, hn, hn2] at h
    simp only at h
    have hn1len : n + 1 < tbl.length := (List.getElem?_eq_some_iff.mp hn2).1
    by_cases hy : r.y < 0
    · rw [if_pos hy] at h
      obtain ⟨hj, hm2⟩ : n = j ∧ (if r.vy * r2.vy < 0 then n else m) = m2 :=
        by cases h; exact ⟨rfl, rfl⟩
      subst hj
      refine ⟨le_refl n, by omega, by omega, ?_, ?_⟩
      · intro r3 hr3
        rw [hn] at hr3
        cases hr3
        exact hy
      · by_cases hc : r.vy * r2.vy < 0
        · rw [if_pos hc] at hm2
          rw [← hm2]
          refine Or.inl ⟨?_, le_refl n, le_refl n, by omega⟩
          rw [scB_eq tbl n r r2 hn hn2]
          exact decide_eq_true hc
        · rw [if_neg hc] at hm2
          rw [← hm2]
          refine Or.inr ⟨rfl, ?_⟩
          intro k hk1 hk2
          have hk : k = n := by omega
          rw [hk, scB_eq tbl n r r2 hn hn2]
          exact decide_eq_false hc
    · rw [if_neg hy] at h
      obtain ⟨h1, h2, h3, h4, h5⟩ := ih (n + 1) _ j m2 h
      refine ⟨by omega, h2, ?_, h4, ?_⟩
      · intro k r3 hk1 hk2 hg
        rcases Nat.eq_or_lt_of_le hk1 with heq | hlt
        · subst heq
          rw [hn] at hg
          cases hg
          exact not_lt.mp hy
        · exact h3 k r3 hlt hk2 hg
      · rcases h5 with ⟨ha, hb, hcc, hd⟩ | ⟨ha, hb⟩
        · exact Or.inl ⟨ha, by omega, hcc, hd⟩
        · by_cases hc : r.vy * r2.vy < 0
          · rw [if_pos hc] at ha
            rw [ha]
            refine Or.inl ⟨?_, le_refl n, by omega, ?_⟩
            · rw [scB_eq tbl n r r2 hn hn2]
              exact decide_eq_true hc
            · intro k hk1 hk2
              exact hb k (by omega) hk2
          · rw [if_neg hc] at ha
            refine Or.inr ⟨ha, ?_⟩
            intro k hk1 hk2
            rcases Nat.eq_or_lt_of_le hk1 with heq | hlt
            · rw [← heq, scB_eq tbl n r r2 hn hn2]
              exact decide_eq_false hc
            · exact hb k hlt hk2

/-- If some row at or after `n` has negative altitude, the first such
row `j` is strictly before the last row, and all rows in between are
non-negative, then the walk breaks cleanly at `j`. -/
theorem scanGo_reach (tbl : List Samp) :
    ∀ fuel n m j r, fuel + n = tbl.length → n ≤ j →
      tbl[j]? = some r → r.y < 0 → j + 1 < tbl.length →
      (∀ k s, n ≤ k → k < j → tbl[k]? = some s → 0 ≤ s.y) →
      ∃ m2, scanGo tbl fuel n m = ScanOut.brk j m2 := by
  intro fuel
  induction fuel with
  | zero =>
    intro n m j r hlen hnj hj hneg hj1 hpre
    exfalso
    have hjlen : j < tbl.length := (List.getElem?_eq_some_iff.mp hj).1
    omega
  | succ f ih =>
    intro n m j r hlen hnj hj hneg hj1 hpre
    have hjlen : j < tbl.length := (List.getElem?_eq_some_iff.mp hj).1
    have hnlen : n < tbl.length := by omega
    have hn1len : n + 1 < tbl.length := by omega
    have hrn : tbl[n]? = some tbl[n] := List.getElem?_eq_getElem hnlen
    have hrn2 : tbl[n + 1]? = some tbl[n + 1] :=
      List.getElem?_eq_getElem hn1len
    rw [scanGo, hrn, hrn2]
    simp only
    rcases Nat.eq_or_lt_of_le hnj with heq | hlt
    · have hr : tbl[n] = r := by
        rw [← heq] at hj
        rw [hrn] at hj
        cases hj
        rfl
      rw [hr, if_pos hneg, ← heq]
      exact ⟨_, rfl⟩
    · have hge : 0 ≤ tbl[n].y := hpre n _ (le_refl n) hlt hrn
      rw [if_neg (not_lt.mpr hge)]
      exact ih (n + 1) _ j r (by omega) hlt hj hneg hj1
        (fun k s hk hkj hg => hpre k s (by omega) hkj hg)

/-- If every row of the table has non-negative altitude, the walk
reaches the final row and dies there with the IndexError raised by the
look-ahead access. -/
theorem scanGo_nonneg (tbl : List Samp) :
    ∀ fuel n m, fuel + n = tbl.length → n < tbl.length →
      (∀ (k : Nat) (r : Samp), tbl[k]? = some r → 0 ≤ r.y) →
      ∃ m2, scanGo tbl fuel n m = ScanOut.idxErr (tbl.length - 1) m2 := by
  intro fuel
  induction fuel with
  | zero =>
    intro n m hlen hn _
    omega
  | succ f ih =>
    intro n m hlen hn hall
    have hrn : tbl[n]? = some tbl[n] := List.getElem?_eq_getElem hn
    rcases Nat.lt_or_ge (n + 1) tbl.length with h1 | h1
    · have hrn2 : tbl[n + 1]? = some tbl[n + 1] := List.getElem?_eq_getElem h1
      rw [scanGo, hrn, hrn2]
      simp only
      have hge : 0 ≤ tbl[n].y := hall n _ hrn
      rw [if_neg (not_lt.mpr hge)]
      exact ih (n + 1) _ (by omega) h1 hall
    · have hrn2 : tbl[n + 1]? = none := by
        simp only [List.getElem?_eq_none_iff]
        omega
      rw [scanGo, hrn, hrn2]
      have hend : n = tbl.length - 1 := by omega
      refine ⟨m, ?_⟩
      show ScanOut.idxErr n m = ScanOut.idxErr (tbl.length - 1) m
      rw [hend]

/-! ## Claim C1 -/

/-- Claim C1 (confirmed): for every state (vx, vy, x, y) with (vx, vy)
nonzero, `derv` returns the derivative (ax, ay, vx, vy) with
(ax, ay) = (0, -g) + d, where d = -dc·speed²·u, speed = √(vx²+vy²) is
positive (so the drag term is well defined), u = (vx, vy)/speed, and
dc = g/terminalVelocity²; as a Lean function of its arguments it is
pure and deterministic. -/
theorem derv_correct (vx vy px py : ℝ)
    (h : (vx, vy) ≠ ((0 : ℝ), (0 : ℝ))) :
    0 < speedOf vx vy ∧ dc = gc / tv ^ 2 ∧
    derv vx vy px py =
      ((((0 : ℝ), -(gc : ℝ)) +
          ((-(dc : ℝ) * speedOf vx vy ^ 2) * (vx / speedOf vx vy),
            (-(dc : ℝ) * speedOf vx vy ^ 2) * (vy / speedOf vx vy))).1,
        (((0 : ℝ), -(gc : ℝ)) +
          ((-(dc : ℝ) * speedOf vx vy ^ 2) * (vx / speedOf vx vy),
            (-(dc : ℝ) * speedOf vx vy ^ 2) * (vy / speedOf vx vy))).2,
        vx, vy) := by
  have hne : vx ≠ 0 ∨ vy ≠ 0 := by
    by_contra hcon
    push_neg at hcon
    exact h (by rw [hcon.1, hcon.2])
  have hsq : 0 < vx ^ 2 + vy ^ 2 := by
    rcases hne with h1 | h1
    · positivity
    · positivity
  refine ⟨Real.sqrt_pos.mpr hsq, rfl, ?_⟩
  simp only [derv, Prod.fst_add, Prod.snd_add]

/-- Witness for C1 at the state (3, 4, 0, 0). -/
theorem derv_correct_witness :
    ((3 : ℝ), (4 : ℝ)) ≠ ((0 : ℝ), (0 : ℝ)) ∧
      (0 < speedOf 3 4 ∧ dc = gc / tv ^ 2 ∧
        derv 3 4 0 0 =
          ((((0 : ℝ), -(gc : ℝ)) +
              ((-(dc : ℝ) * speedOf 3 4 ^ 2) * (3 / speedOf 3 4),
                (-(dc : ℝ) * speedOf 3 4 ^ 2) * (4 / speedOf 3 4))).1,
            (((0 : ℝ), -(gc : ℝ)) +
              ((-(dc : ℝ) * speedOf 3 4 ^ 2) * (3 / speedOf 3 4),
                (-(dc : ℝ) * speedOf 3 4 ^ 2) * (4 / speedOf 3 4))).2,
            (3 : ℝ), (4 : ℝ))) :=
  ⟨by simp, derv_correct 3 4 0 0 (by simp)⟩

/-! ## Claim C2 -/

/-- A table whose only below-ground sample is the final row: strictly
increasing times, row 0 above ground, row 1 below ground. -/
def tblX2 : List Samp := [⟨0, -1, 0, 1, 0⟩, ⟨0, -2, 1, -1, 1⟩]

/-- Counterexample to C2 as stated: on a table with strictly increasing
times containing a negative-altitude sample (at the final row), the walk
does not halt via the break at that row; the apex look-ahead
`yint[n+1,1]` raises IndexError there first, killing the run. -/
theorem scan_truncation_cex :
    scan tblX2 = ScanOut.idxErr 1 0 ∧
    (¬ ∃ m2, scan tblX2 = ScanOut.brk 1 m2) ∧
    List.Chain' (fun a b => a.t < b.t) tblX2 ∧
    tblX2[0]? = some ⟨0, -1, 0, 1, 0⟩ ∧ (0 : ℚ) ≤ (1 : ℚ) ∧
    tblX2[1]? = some ⟨0, -2, 1, -1, 1⟩ ∧ (-1 : ℚ) < 0 := by
  have hs : scan tblX2 = ScanOut.idxErr 1 0 := by
    norm_num [scan, tblX2, scanGo]
  refine ⟨hs, ?_, ?_, by simp [tblX2], by norm_num, by simp [tblX2], by norm_num⟩
  · rintro ⟨m2, hm2⟩
    rw [hs] at hm2
    cases hm2
  · simp [tblX2, List.chain'_cons]
    try norm_num

/-- Claim C2 (amended): on any table with strictly increasing times
whose first negative-altitude row `j` is not the final row, the walk
halts via the break at `j`; exactly rows 0..j-1 are retained as the
printed sequence, their times are strictly increasing, every retained
altitude is non-negative, and the discarded row `j` has negative
altitude.  (When the first negative-altitude row is the final row, the
apex look-ahead raises IndexError instead — see the counterexample.) -/
theorem scan_truncation (tbl : List Samp) (j : Nat) (r : Samp)
    (hget : tbl[j]? = some r) (hneg : r.y < 0)
    (hfirst : ∀ (k : Nat) (s : Samp), k < j → tbl[k]? = some s → 0 ≤ s.y)
    (hedge : j + 1 < tbl.length)
    (hmono : List.Chain' (fun a b => a.t < b.t) tbl) :
    ∃ m2, scan tbl = ScanOut.brk j m2 ∧
      retained tbl = tbl.take j ∧
      List.Chain' (fun a b => a.t < b.t) (retained tbl) ∧
      (∀ s ∈ retained tbl, 0 ≤ s.y) ∧
      r.y < 0 := by
  obtain ⟨m2, hm2⟩ := scanGo_reach tbl tbl.length 0 0 j r (by omega)
    (Nat.zero_le j) hget hneg hedge (fun k s _ hkj hg => hfirst k s hkj hg)
  have hscan : scan tbl = ScanOut.brk j m2 := hm2
  have hret : retained tbl = tbl.take j := by
    unfold retained
    rw [hscan]
    rfl
  refine ⟨m2, hscan, hret, ?_, ?_, hneg⟩
  · rw [hret]
    exact List.Chain'.take hmono j
  · intro s hs
    rw [hret] at hs
    obtain ⟨i, hi⟩ := List.mem_iff_getElem?.mp hs
    have hilen : i < (tbl.take j).length := (List.getElem?_eq_some_iff.mp hi).1
    have hij : i < j := by
      rw [List.length_take] at hilen
      omega
    have hig : tbl[i]? = some s := by
      rw [← List.getElem?_take_of_lt hij]
      exact hi
    exact hfirst i s hij hig

/-- Concrete table for the C2 witness: first negative altitude at row 2
of 4. -/
def tblW2 : List Samp :=
  [⟨0, 1, 0, 2, 0⟩, ⟨0, 1, 1, 1, 1⟩, ⟨0, 1, 2, -1, 2⟩, ⟨0, 1, 3, -2, 3⟩]

/-- Witness for the amended C2 on `tblW2` with j = 2. -/
theorem scan_truncation_witness :
    (tblW2[2]? = some ⟨0, 1, 2, -1, 2⟩ ∧ ((-1 : ℚ) < 0) ∧
      2 + 1 < tblW2.length ∧ List.Chain' (fun a b => a.t < b.t) tblW2) ∧
    ∃ m2, scan tblW2 = ScanOut.brk 2 m2 ∧
      retained tblW2 = tblW2.take 2 ∧
      List.Chain' (fun a b => a.t < b.t) (retained tblW2) ∧
      (∀ s ∈ retained tblW2, 0 ≤ s.y) ∧
      ((⟨0, 1, 2, -1, 2⟩ : Samp).y < 0) :=
  ⟨⟨by simp [tblW2], by norm_num, by simp [tblW2],
      by simp [tblW2, List.chain'_cons]; norm_num⟩,
    scan_truncation tblW2 2 ⟨0, 1, 2, -1, 2⟩ (by simp [tblW2]) (by norm_num)
      (by
        intro k s hk hg
        interval_cases k <;> simp [tblW2] at hg <;> rw [← hg] <;> norm_num)
      (by simp [tblW2])
      (by simp [tblW2, List.chain'_cons]; norm_num)⟩

/-! ## Claim C3 -/

/-- A table with two vertical-velocity sign changes (at rows 0 and 2)
before truncation at row 4. -/
def tblX3 : List Samp :=
  [⟨1, 1, 0, 5, 0⟩, ⟨1, -1, 1, 4, 1⟩, ⟨1, -1, 2, 3, 2⟩, ⟨1, 1, 3, 2, 3⟩,
   ⟨1, 1, 4, -1, 4⟩, ⟨1, 1, 5, -9, 5⟩]

/-- Counterexample to C3 as stated: on `tblX3` the first index with
`vy[k]·vy[k+1] < 0` is 0, yet the recorded apex bracket center is 2 —
every detected sign change overwrites `m`, so the scan records the LAST
sign-change index before truncation, not the first. -/
theorem scan_apex_first_cex :
    scan tblX3 = ScanOut.brk 4 2 ∧ scB tblX3 0 = true ∧ (0 : Nat) ≠ 2 := by
  refine ⟨by norm_num [scan, tblX3, scanGo], ?_, by norm_num⟩
  simp [scB, tblX3]
  try norm_num

/-- Claim C3 (amended): if the walk breaks at row `n` and some index
`k ≤ n` has `vy[k]·vy[k+1] < 0`, then the recorded `m` is the LAST such
index at or before `n` (the sign-change check also runs at the
truncation row itself, before the break fires). -/
theorem scan_apex_last (tbl : List Samp) (n m k : Nat)
    (hscan : scan tbl = ScanOut.brk n m)
    (hk : k ≤ n) (hsc : scB tbl k = true) :
    scB tbl m = true ∧ m ≤ n ∧
      ∀ (k2 : Nat), m < k2 → k2 ≤ n → scB tbl k2 = false := by
  obtain ⟨_, _, _, _, h5⟩ := scanGo_brk_spec tbl tbl.length 0 0 n m hscan
  rcases h5 with ⟨ha, _, hcc, hd⟩ | ⟨_, hb⟩
  · exact ⟨ha, hcc, hd⟩
  · have := hb k (Nat.zero_le k) hk
    rw [hsc] at this
    cases this

/-- Concrete table for the C3 witness: a single sign change at row 0,
truncation at row 2. -/
def tblW3 : List Samp :=
  [⟨1, 1, 0, 3, 0⟩, ⟨1, -1, 1, 2, 1⟩, ⟨1, -1, 2, -1, 2⟩, ⟨1, -1, 3, -5, 3⟩]

/-- Witness for the amended C3 on `tblW3`. -/
theorem scan_apex_last_witness :
    (scan tblW3 = ScanOut.brk 2 0 ∧ (0 : Nat) ≤ 2 ∧ scB tblW3 0 = true) ∧
    (scB tblW3 0 = true ∧ 0 ≤ 2 ∧
      ∀ (k2 : Nat), 0 < k2 → k2 ≤ 2 → scB tblW3 k2 = false) :=
  ⟨⟨by norm_num [scan, tblW3, scanGo], by norm_num,
      by simp [scB, tblW3]; try norm_num⟩,
    scan_apex_last tblW3 2 0 0 (by norm_num [scan, tblW3, scanGo])
      (by norm_num) (by simp [scB, tblW3]; try norm_num)⟩

/-! ## Refinement index resolution -/

/-- With `1 ≤ m` and `m + 1` in range, the apex refinement reads the
plain rows `m-1`, `m`, `m+1` and returns the highest-point record. -/
theorem apexRefine_eq (tbl : List Samp) (m : Nat) (s0 s1 s2 : Samp)
    (hm : 1 ≤ m) (hm2 : m + 1 < tbl.length)
    (g0 : tbl[m - 1]? = some s0) (g1 : tbl[m]? = some s1)
    (g2 : tbl[m + 1]? = some s2) :
    apexRefine tbl (m : ℤ) = some (apexOf s0 s1 s2) := by
  have e0 : pyGet tbl ((m : ℤ) - 1) = tbl[m - 1]? := by
    rw [pyGet_of_nonneg tbl _ (by omega) (by omega),
      (by omega : ((m : ℤ) - 1).toNat = m - 1)]
  have e1 : pyGet tbl (m : ℤ) = tbl[m]? := by
    rw [pyGet_of_nonneg tbl _ (by omega) (by omega),
      (by omega : ((m : ℤ)).toNat = m)]
  have e2 : pyGet tbl ((m : ℤ) + 1) = tbl[m + 1]? := by
    rw [pyGet_of_nonneg tbl _ (by omega) (by omega),
      (by omega : ((m : ℤ) + 1).toNat = m + 1)]
  rw [apexRefine, e0, e1, e2, g0, g1, g2]

/-- With `2 ≤ n` and `n` in range, the impact refinement reads the
plain rows `n-2`, `n-1`, `n` and returns the impact record. -/
theorem impactRefine_eq (tbl : List Samp) (n : Nat) (s0 s1 s2 : Samp)
    (hn : 2 ≤ n) (hn2 : n < tbl.length)
    (g0 : tbl[n - 2]? = some s0) (g1 : tbl[n - 1]? = some s1)
    (g2 : tbl[n]? = some s2) :
    impactRefine tbl (n : ℤ) = some (impactOf s0 s1 s2) := by
  have e0 : pyGet tbl ((n : ℤ) - 2) = tbl[n - 2]? := by
    rw [pyGet_of_nonneg tbl _ (by omega) (by omega),
      (by omega : ((n : ℤ) - 2).toNat = n - 2)]
  have e1 : pyGet tbl ((n : ℤ) - 1) = tbl[n - 1]? := by
    rw [pyGet_of_nonneg tbl _ (by omega) (by omega),
      (by omega : ((n : ℤ) - 1).toNat = n - 1)]
  have e2 : pyGet tbl (n : ℤ) = tbl[n]? := by
    rw [pyGet_of_nonneg tbl _ (by omega) (by omega),
      (by omega : ((n : ℤ)).toNat = n)]
  rw [impactRefine, e0, e1, e2, g0, g1, g2]

/-! ## Claim C4 -/

/-- Claim C4 (confirmed): given the three samples at rows m-1, m, m+1
with pairwise distinct horizontal positions, the refined apex satisfies
hx = -b/(2a) for the coefficients (a, b, c) of the Lagrange quadratic
through the three (x, y) pairs (which indeed interpolates them), hy is
that quadratic at hx, the apex time and apex horizontal velocity are the
(x, t) and (x, vx) Lagrange quadratics (which also interpolate) at hx,
and the reported apex flight angle is exactly 0. -/
theorem apexRefine_correct (tbl : List Samp) (m : Nat) (s0 s1 s2 : Samp)
    (hm : 1 ≤ m) (hm2 : m + 1 < tbl.length)
    (g0 : tbl[m - 1]? = some s0) (g1 : tbl[m]? = some s1)
    (g2 : tbl[m + 1]? = some s2)
    (hd01 : s0.x ≠ s1.x) (hd02 : s0.x ≠ s2.x) (hd12 : s1.x ≠ s2.x) :
    apexRefine tbl (m : ℤ) = some (apexOf s0 s1 s2) ∧
    interpolates (lagrange3 s0.x s1.x s2.x s0.y s1.y s2.y)
      s0.x s1.x s2.x s0.y s1.y s2.y ∧
    interpolates (lagrange3 s0.x s1.x s2.x s0.t s1.t s2.t)
      s0.x s1.x s2.x s0.t s1.t s2.t ∧
    interpolates (lagrange3 s0.x s1.x s2.x s0.vx s1.vx s2.vx)
      s0.x s1.x s2.x s0.vx s1.vx s2.vx ∧
    (apexOf s0 s1 s2).dist =
      -(lagrange3 s0.x s1.x s2.x s0.y s1.y s2.y).b /
        (2 * (lagrange3 s0.x s1.x s2.x s0.y s1.y s2.y).a) ∧
    (apexOf s0 s1 s2).alt =
      (lagrange3 s0.x s1.x s2.x s0.y s1.y s2.y).eval ((apexOf s0 s1 s2).dist) ∧
    (apexOf s0 s1 s2).t =
      (lagrange3 s0.x s1.x s2.x s0.t s1.t s2.t).eval ((apexOf s0 s1 s2).dist) ∧
    (apexOf s0 s1 s2).v =
      (lagrange3 s0.x s1.x s2.x s0.vx s1.vx s2.vx).eval ((apexOf s0 s1 s2).dist) ∧
    (apexOf s0 s1 s2).ang = 0 :=
  ⟨apexRefine_eq tbl m s0 s1 s2 hm hm2 g0 g1 g2,
    lagrange3_interp _ _ _ _ _ _ hd01 hd02 hd12,
    lagrange3_interp _ _ _ _ _ _ hd01 hd02 hd12,
    lagrange3_interp _ _ _ _ _ _ hd01 hd02 hd12,
    rfl, rfl, rfl, rfl, rfl⟩

/-- Concrete apex bracket for the C4 witness. -/
def tblW4 : List Samp :=
  [⟨1, 1, 0, 0, 0⟩, ⟨1, 0, 1, 1, 1⟩, ⟨1, -1, 2, 0, 2⟩]

/-- Witness for C4 on `tblW4` with m = 1. -/
theorem apexRefine_correct_witness :
    (1 ≤ 1 ∧ 1 + 1 < tblW4.length ∧
      tblW4[0]? = some ⟨1, 1, 0, 0, 0⟩ ∧ tblW4[1]? = some ⟨1, 0, 1, 1, 1⟩ ∧
      tblW4[2]? = some ⟨1, -1, 2, 0, 2⟩ ∧
      ((⟨1, 1, 0, 0, 0⟩ : Samp).x ≠ (⟨1, 0, 1, 1, 1⟩ : Samp).x)) ∧
    apexRefine tblW4 ((1 : Nat) : ℤ) =
      some (apexOf ⟨1, 1, 0, 0, 0⟩ ⟨1, 0, 1, 1, 1⟩ ⟨1, -1, 2, 0, 2⟩) :=
  ⟨⟨by norm_num, by simp [tblW4], by simp [tblW4], by simp [tblW4],
      by simp [tblW4], by simp⟩,
    (apexRefine_correct tblW4 1 ⟨1, 1, 0, 0, 0⟩ ⟨1, 0, 1, 1, 1⟩ ⟨1, -1, 2, 0, 2⟩
      (by norm_num) (by simp [tblW4]) (by simp [tblW4]) (by simp [tblW4])
      (by simp [tblW4]) (by simp) (by simp) (by simp)).1⟩

/-! ## Claim C5 -/

/-- Claim C5 (confirmed): given the three samples at rows n-2, n-1, n
with pairwise distinct altitudes, the impact record is obtained by
fitting Lagrange quadratics of x, t, vx and vy each against altitude y
(each fit interpolating its three data points) and evaluating every fit
at y = 0; the impact speed `iv = (ivx**2+ivy**2)**0.5` is the
non-negative real with iv² = ivx² + ivy², and the reported impact
altitude is exactly 0. -/
theorem impactRefine_correct (tbl : List Samp) (n : Nat) (s0 s1 s2 : Samp)
    (hn : 2 ≤ n) (hn2 : n < tbl.length)
    (g0 : tbl[n - 2]? = some s0) (g1 : tbl[n - 1]? = some s1)
    (g2 : tbl[n]? = some s2)
    (hd01 : s0.y ≠ s1.y) (hd02 : s0.y ≠ s2.y) (hd12 : s1.y ≠ s2.y) :
    impactRefine tbl (n : ℤ) = some (impactOf s0 s1 s2) ∧
    interpolates (lagrange3 s0.y s1.y s2.y s0.x s1.x s2.x)
      s0.y s1.y s2.y s0.x s1.x s2.x ∧
    interpolates (lagrange3 s0.y s1.y s2.y s0.t s1.t s2.t)
      s0.y s1.y s2.y s0.t s1.t s2.t ∧
    interpolates (lagrange3 s0.y s1.y s2.y s0.vx s1.vx s2.vx)
      s0.y s1.y s2.y s0.vx s1.vx s2.vx ∧
    interpolates (lagrange3 s0.y s1.y s2.y s0.vy s1.vy s2.vy)
      s0.y s1.y s2.y s0.vy s1.vy s2.vy ∧
    (impactOf s0 s1 s2).dist =
      (lagrange3 s0.y s1.y s2.y s0.x s1.x s2.x).eval 0 ∧
    (impactOf s0 s1 s2).t =
      (lagrange3 s0.y s1.y s2.y s0.t s1.t s2.t).eval 0 ∧
    (impactOf s0 s1 s2).ivx =
      (lagrange3 s0.y s1.y s2.y s0.vx s1.vx s2.vx).eval 0 ∧
    (impactOf s0 s1 s2).ivy =
      (lagrange3 s0.y s1.y s2.y s0.vy s1.vy s2.vy).eval 0 ∧
    (impactOf s0 s1 s2).alt = 0 ∧
    0 ≤ speedOf ((impactOf s0 s1 s2).ivx : ℝ) ((impactOf s0 s1 s2).ivy : ℝ) ∧
    speedOf ((impactOf s0 s1 s2).ivx : ℝ) ((impactOf s0 s1 s2).ivy : ℝ) ^ 2 =
      ((impactOf s0 s1 s2).ivx : ℝ) ^ 2 + ((impactOf s0 s1 s2).ivy : ℝ) ^ 2 :=
  ⟨impactRefine_eq tbl n s0 s1 s2 hn hn2 g0 g1 g2,
    lagrange3_interp _ _ _ _ _ _ hd01 hd02 hd12,
    lagrange3_interp _ _ _ _ _ _ hd01 hd02 hd12,
    lagrange3_interp _ _ _ _ _ _ hd01 hd02 hd12,
    lagrange3_interp _ _ _ _ _ _ hd01 hd02 hd12,
    rfl, rfl, rfl, rfl, rfl,
    Real.sqrt_nonneg _,
    Real.sq_sqrt (by positivity)⟩

/-- Concrete impact bracket for the C5 witness. -/
def tblW5 : List Samp :=
  [⟨2, -1, 0, 3, 0⟩, ⟨2, -2, 1, 1, 1⟩, ⟨2, -3, 2, -1, 2⟩]

/-- Witness for C5 on `tblW5` with n = 2. -/
theorem impactRefine_correct_witness :
    (2 ≤ 2 ∧ 2 < tblW5.length ∧
      tblW5[0]? = some ⟨2, -1, 0, 3, 0⟩ ∧ tblW5[1]? = some ⟨2, -2, 1, 1, 1⟩ ∧
      tblW5[2]? = some ⟨2, -3, 2, -1, 2⟩ ∧
      ((⟨2, -1, 0, 3, 0⟩ : Samp).y ≠ (⟨2, -2, 1, 1, 1⟩ : Samp).y)) ∧
    impactRefine tblW5 ((2 : Nat) : ℤ) =
      some (impactOf ⟨2, -1, 0, 3, 0⟩ ⟨2, -2, 1, 1, 1⟩ ⟨2, -3, 2, -1, 2⟩) :=
  ⟨⟨by norm_num, by simp [tblW5], by simp [tblW5], by simp [tblW5],
      by simp [tblW5], by simp⟩,
    (impactRefine_correct tblW5 2 ⟨2, -1, 0, 3, 0⟩ ⟨2, -2, 1, 1, 1⟩
      ⟨2, -3, 2, -1, 2⟩ (by norm_num) (by simp [tblW5]) (by simp [tblW5])
      (by simp [tblW5]) (by simp [tblW5]) (by norm_num) (by norm_num)
      (by norm_num)).1⟩

/-! ## Claim C6 -/

/-- An impact bracket whose refined impact velocity is (ivx, ivy) =
(-1, 0): constant backward horizontal motion, zero vertical velocity. -/
def tblX6 : List Samp :=
  [⟨-1, 0, 0, 2, 0⟩, ⟨-1, 0, 1, 1, 1⟩, ⟨-1, 0, 2, -1, 2⟩]

/-- Counterexample to C6 as stated: the refined impact velocity of
`tblX6` is (ivx, ivy) = (-1, 0), and on it the source's angle formula
`np.degrees(np.arctan(ivy/ivx))` yields 0°, while the two-argument
arctangent in degrees yields 180°: line 114 uses the single-argument
arctan of the quotient, not atan2, and is not quadrant-correct. -/
theorem impact_angle_cex :
    (impactRefine tblX6 2).map ImpactRec.ivx = some (-1) ∧
    (impactRefine tblX6 2).map ImpactRec.ivy = some 0 ∧
    iaOf (-1) 0 = 0 ∧ degOf (atan2 0 (-1)) = 180 ∧
    iaOf (-1) 0 ≠ degOf (atan2 0 (-1)) := by
  have href : impactRefine tblX6 2 =
      some (impactOf ⟨-1, 0, 0, 2, 0⟩ ⟨-1, 0, 1, 1, 1⟩ ⟨-1, 0, 2, -1, 2⟩) :=
    impactRefine_eq tblX6 2 ⟨-1, 0, 0, 2, 0⟩ ⟨-1, 0, 1, 1, 1⟩ ⟨-1, 0, 2, -1, 2⟩
      (by norm_num) (by simp [tblX6]) (by simp [tblX6]) (by simp [tblX6])
      (by simp [tblX6])
  have h1 : (impactRefine tblX6 2).map ImpactRec.ivx = some (-1) := by
    rw [href]
    norm_num [impactOf, lagrange3, Quad.eval]
  have h2 : (impactRefine tblX6 2).map ImpactRec.ivy = some 0 := by
    rw [href]
    norm_num [impactOf, lagrange3, Quad.eval]
  have h3 : iaOf (-1) 0 = 0 := by
    norm_num [iaOf, degOf]
  have h4 : degOf (atan2 0 (-1)) = 180 := by
    rw [atan2]
    norm_num [degOf]
    field_simp
  refine ⟨h1, h2, h3, h4, ?_⟩
  rw [h3, h4]
  norm_num

/-- Claim C6 (amended): the impact angle is computed as
`degrees(arctan(ivy/ivx))` — the single-argument arctangent of the
quotient; this agrees with the two-argument arctangent in degrees
whenever ivx > 0, but not in general (see the counterexample with
ivx = -1, where the code is off by 180°). -/
theorem impact_angle_posx (a b : ℝ) (ha : 0 < a) :
    iaOf a b = degOf (atan2 b a) := by
  rw [iaOf, atan2, if_pos ha]

/-- Witness for the amended C6 at (ivx, ivy) = (2, -1). -/
theorem impact_angle_posx_witness :
    (0 : ℝ) < 2 ∧ iaOf 2 (-1) = degOf (atan2 (-1) 2) :=
  ⟨by norm_num, impact_angle_posx 2 (-1) (by norm_num)⟩

/-! ## Negative-index resolution of the refinement stages -/

/-- With at least 2 rows, apex refinement called with bracket index 0
reads row -1 — the LAST row, by Python wraparound — then rows 0 and 1,
and returns a record built from them. -/
theorem apexRefine_zero (tbl : List Samp) (hlen : 2 ≤ tbl.length) :
    ∃ sL s0 s1, tbl[tbl.length - 1]? = some sL ∧ tbl[0]? = some s0 ∧
      tbl[1]? = some s1 ∧ apexRefine tbl 0 = some (apexOf sL s0 s1) := by
  have hL : tbl.length - 1 < tbl.length := by omega
  have h0 : 0 < tbl.length := by omega
  have h1 : 1 < tbl.length := by omega
  have e0 : pyGet tbl ((0 : ℤ) - 1) = tbl[tbl.length - 1]? := by
    rw [(by norm_num : (0 : ℤ) - 1 = -1),
      pyGet_of_neg tbl (-1) (by norm_num) (by omega),
      (by omega : ((-1 : ℤ) + (tbl.length : ℤ)).toNat = tbl.length - 1)]
  have e1 : pyGet tbl (0 : ℤ) = tbl[0]? := by
    rw [pyGet_of_nonneg tbl 0 le_rfl (by omega),
      (by omega : ((0 : ℤ)).toNat = 0)]
  have e2 : pyGet tbl ((0 : ℤ) + 1) = tbl[1]? := by
    rw [(by norm_num : (0 : ℤ) + 1 = 1),
      pyGet_of_nonneg tbl 1 (by norm_num) (by omega),
      (by omega : ((1 : ℤ)).toNat = 1)]
  refine ⟨tbl[tbl.length - 1], tbl[0], tbl[1],
    List.getElem?_eq_getElem hL, List.getElem?_eq_getElem h0,
    List.getElem?_eq_getElem h1, ?_⟩
  rw [apexRefine, e0, e1, e2, List.getElem?_eq_getElem hL,
    List.getElem?_eq_getElem h0, List.getElem?_eq_getElem h1]

/-- With at least 2 rows, impact refinement called with truncation
index 0 reads rows -2 and -1 — the last two rows, by Python
wraparound — then row 0, and returns a record built from them. -/
theorem impactRefine_zero (tbl : List Samp) (hlen : 2 ≤ tbl.length) :
    ∃ sA sB s0, tbl[tbl.length - 2]? = some sA ∧
      tbl[tbl.length - 1]? = some sB ∧ tbl[0]? = some s0 ∧
      impactRefine tbl 0 = some (impactOf sA sB s0) := by
  have hA : tbl.length - 2 < tbl.length := by omega
  have hB : tbl.length - 1 < tbl.length := by omega
  have h0 : 0 < tbl.length := by omega
  have e0 : pyGet tbl ((0 : ℤ) - 2) = tbl[tbl.length - 2]? := by
    rw [(by norm_num : (0 : ℤ) - 2 = -2),
      pyGet_of_neg tbl (-2) (by norm_num) (by omega),
      (by omega : ((-2 : ℤ) + (tbl.length : ℤ)).toNat = tbl.length - 2)]
  have e1 : pyGet tbl ((0 : ℤ) - 1) = tbl[tbl.length - 1]? := by
    rw [(by norm_num : (0 : ℤ) - 1 = -1),
      pyGet_of_neg tbl (-1) (by norm_num) (by omega),
      (by omega : ((-1 : ℤ) + (tbl.length : ℤ)).toNat = tbl.length - 1)]
  have e2 : pyGet tbl (0 : ℤ) = tbl[0]? := by
    rw [pyGet_of_nonneg tbl 0 le_rfl (by omega),
      (by omega : ((0 : ℤ)).toNat = 0)]
  refine ⟨tbl[tbl.length - 2], tbl[tbl.length - 1], tbl[0],
    List.getElem?_eq_getElem hA, List.getElem?_eq_getElem hB,
    List.getElem?_eq_getElem h0, ?_⟩
  rw [impactRefine, e0, e1, e2, List.getElem?_eq_getElem hA,
    List.getElem?_eq_getElem hB, List.getElem?_eq_getElem h0]

/-- With at least 2 rows, impact refinement called with truncation
index 1 reads row -1 — the last row, by Python wraparound — then rows 0
and 1, and returns a record built from them. -/
theorem impactRefine_one (tbl : List Samp) (hlen : 2 ≤ tbl.length) :
    ∃ sB s0 s1, tbl[tbl.length - 1]? = some sB ∧ tbl[0]? = some s0 ∧
      tbl[1]? = some s1 ∧ impactRefine tbl 1 = some (impactOf sB s0 s1) := by
  have hB : tbl.length - 1 < tbl.length := by omega
  have h0 : 0 < tbl.length := by omega
  have h1 : 1 < tbl.length := by omega
  have e0 : pyGet tbl ((1 : ℤ) - 2) = tbl[tbl.length - 1]? := by
    rw [(by norm_num : (1 : ℤ) - 2 = -1),
      pyGet_of_neg tbl (-1) (by norm_num) (by omega),
      (by omega : ((-1 : ℤ) + (tbl.length : ℤ)).toNat = tbl.length - 1)]
  have e1 : pyGet tbl ((1 : ℤ) - 1) = tbl[0]? := by
    rw [(by norm_num : (1 : ℤ) - 1 = 0),
      pyGet_of_nonneg tbl 0 le_rfl (by omega),
      (by omega : ((0 : ℤ)).toNat = 0)]
  have e2 : pyGet tbl (1 : ℤ) = tbl[1]? := by
    rw [pyGet_of_nonneg tbl 1 (by norm_num) (by omega),
      (by omega : ((1 : ℤ)).toNat = 1)]
  refine ⟨tbl[tbl.length - 1], tbl[0], tbl[1],
    List.getElem?_eq_getElem hB, List.getElem?_eq_getElem h0,
    List.getElem?_eq_getElem h1, ?_⟩
  rw [impactRefine, e0, e1, e2, List.getElem?_eq_getElem hB,
    List.getElem?_eq_getElem h0, List.getElem?_eq_getElem h1]

/-! ## Claim C7 -/

/-- A table with no vertical-velocity sign change (vy always negative)
and truncation at row 2. -/
def tblX7 : List Samp :=
  [⟨1, -1, 0, 5, 0⟩, ⟨1, -2, 1, 3, 1⟩, ⟨1, -3, 2, -1, 2⟩, ⟨1, -4, 3, -5, 3⟩]

/-- Counterexample to C7 as stated: on `tblX7` no sign change of vy
occurs before truncation (the walk breaks at row 2 with m still 0), yet
the pipeline does not fail — apex refinement silently returns a numeric
record, fabricated from the LAST row (reached through the negative index
m-1 = -1), row 0 and row 1; nothing resembling NoApexFound exists. -/
theorem no_apex_cex :
    scan tblX7 = ScanOut.brk 2 0 ∧
    scB tblX7 0 = false ∧ scB tblX7 1 = false ∧ scB tblX7 2 = false ∧
    apexRefine tblX7 0 =
      some (apexOf ⟨1, -4, 3, -5, 3⟩ ⟨1, -1, 0, 5, 0⟩ ⟨1, -2, 1, 3, 1⟩) := by
  refine ⟨by norm_num [scan, tblX7, scanGo], by simp [scB, tblX7]; try norm_num,
    by simp [scB, tblX7]; try norm_num, by simp [scB, tblX7]; try norm_num, ?_⟩
  obtain ⟨sL, s0, s1, gL, g0, g1, happ⟩ := apexRefine_zero tblX7 (by simp [tblX7])
  have eL : sL = ⟨1, -4, 3, -5, 3⟩ := by
    simp [tblX7] at gL
    exact gL.symm
  have e0 : s0 = ⟨1, -1, 0, 5, 0⟩ := by
    simp [tblX7] at g0
    exact g0.symm
  have e1 : s1 = ⟨1, -2, 1, 3, 1⟩ := by
    simp [tblX7] at g1
    exact g1.symm
  rw [← eL, ← e0, ← e1]
  exact happ

/-- Claim C7 (amended): when no vertical-velocity sign change occurs up
to the truncation row, the apex counter keeps its initial value m = 0
and apex refinement does NOT fail: it returns a numeric record (built
from the wrapped-around last row), with no error of any kind — the
source has no NoApexFound. -/
theorem apex_no_sign_change (tbl : List Samp) (n m : Nat)
    (hscan : scan tbl = ScanOut.brk n m)
    (hns : ∀ (k : Nat), k ≤ n → scB tbl k = false)
    (hlen : 2 ≤ tbl.length) :
    m = 0 ∧ ∃ r, apexRefine tbl (m : ℤ) = some r := by
  obtain ⟨_, _, _, _, h5⟩ := scanGo_brk_spec tbl tbl.length 0 0 n m hscan
  have hm0 : m = 0 := by
    rcases h5 with ⟨ha, _, hb, _⟩ | ⟨ha, _⟩
    · rw [hns m hb] at ha
      cases ha
    · exact ha
  subst hm0
  obtain ⟨sL, s0, s1, _, _, _, happ⟩ := apexRefine_zero tbl hlen
  exact ⟨rfl, ⟨apexOf sL s0 s1, happ⟩⟩

/-- Concrete table for the C7 witness: vy never changes sign,
truncation at row 2. -/
def tblW7 : List Samp :=
  [⟨2, -1, 0, 7, 0⟩, ⟨2, -2, 2, 4, 1⟩, ⟨2, -3, 4, -2, 2⟩, ⟨2, -4, 6, -7, 3⟩]

/-- Witness for the amended C7 on `tblW7`. -/
theorem apex_no_sign_change_witness :
    (scan tblW7 = ScanOut.brk 2 0 ∧
      (∀ (k : Nat), k ≤ 2 → scB tblW7 k = false) ∧ 2 ≤ tblW7.length) ∧
    ((0 : Nat) = 0 ∧ ∃ r, apexRefine tblW7 ((0 : Nat) : ℤ) = some r) :=
  ⟨⟨by norm_num [scan, tblW7, scanGo],
      by
        intro k hk
        interval_cases k <;> simp [scB, tblW7],
      by simp [tblW7]⟩,
    apex_no_sign_change tblW7 2 0 (by norm_num [scan, tblW7, scanGo])
      (by
        intro k hk
        interval_cases k <;> simp [scB, tblW7])
      (by simp [tblW7])⟩

/-! ## Claim C8 -/

/-- A table with no below-ground sample: every altitude positive. -/
def tblX8 : List Samp := [⟨1, 1, 0, 1, 0⟩, ⟨1, 1, 1, 2, 1⟩, ⟨1, 1, 2, 3, 2⟩]

/-- Counterexample to C8 as stated: on `tblX8` (no negative-altitude
sample) the walk does not fail with any distinguishable, recoverable
condition; it dies with the IndexError raised by the look-ahead
`yint[n+1,1]` at the final row — a plain crash, and the only failure
mode the source has. -/
theorem no_impact_cex :
    scan tblX8 = ScanOut.idxErr 2 0 ∧
    (¬ ∃ n m, scan tblX8 = ScanOut.brk n m) ∧
    tblX8[0]? = some ⟨1, 1, 0, 1, 0⟩ ∧ (0 : ℚ) ≤ 1 ∧
    tblX8[1]? = some ⟨1, 1, 1, 2, 1⟩ ∧ (0 : ℚ) ≤ 2 ∧
    tblX8[2]? = some ⟨1, 1, 2, 3, 2⟩ ∧ (0 : ℚ) ≤ 3 := by
  have hs : scan tblX8 = ScanOut.idxErr 2 0 := by
    norm_num [scan, tblX8, scanGo]
  refine ⟨hs, ?_, by simp [tblX8], by norm_num, by simp [tblX8], by norm_num,
    by simp [tblX8], by norm_num⟩
  rintro ⟨n, m, hm⟩
  rw [hs] at hm
  cases hm

/-- Claim C8 (amended): on every non-empty table with no
negative-altitude sample, the walk aborts with the IndexError from the
look-ahead access at the final row (there is no NoImpactFound and no
other designed error value in the source). -/
theorem scan_no_impact_crash (tbl : List Samp) (hlen : 1 ≤ tbl.length)
    (hall : ∀ (k : Nat) (r : Samp), tbl[k]? = some r → 0 ≤ r.y) :
    ∃ m2, scan tbl = ScanOut.idxErr (tbl.length - 1) m2 :=
  scanGo_nonneg tbl tbl.length 0 0 (by omega) (by omega) hall

/-- Concrete table for the C8 witness. -/
def tblV8 : List Samp := [⟨3, 2, 0, 1, 0⟩, ⟨3, 2, 3, 5, 1⟩]

/-- Witness for the amended C8 on `tblV8`. -/
theorem scan_no_impact_crash_witness :
    (1 ≤ tblV8.length ∧
      (∀ (k : Nat) (r : Samp), tblV8[k]? = some r → 0 ≤ r.y)) ∧
    ∃ m2, scan tblV8 = ScanOut.idxErr (tblV8.length - 1) m2 :=
  ⟨⟨by simp [tblV8],
      by
        intro k r h
        match k with
        | 0 =>
          simp [tblV8] at h
          rw [← h]
          norm_num
        | 1 =>
          simp [tblV8] at h
          rw [← h]
          norm_num
        | k + 2 => simp [tblV8] at h⟩,
    scan_no_impact_crash tblV8 (by simp [tblV8])
      (by
        intro k r h
        match k with
        | 0 =>
          simp [tblV8] at h
          rw [← h]
          norm_num
        | 1 =>
          simp [tblV8] at h
          rw [← h]
          norm_num
        | k + 2 => simp [tblV8] at h)⟩

/-! ## Claim C9 -/

/-- An apex bracket with three identical horizontal positions (a purely
vertical launch). -/
def tblX9 : List Samp :=
  [⟨1, 1, 5, 0, 0⟩, ⟨1, 0, 5, 1, 1⟩, ⟨1, -1, 5, 0, 2⟩]

/-- Counterexample to C9 as stated: feeding the all-x-equal bracket
`tblX9` to the apex refinement does not fail with any guard — there is
no distinctness check in the source — and a numeric record is returned.
In the exact model division by the zero Lagrange denominators yields the
all-zero record; in IEEE arithmetic the same divisions produce
NaN/Infinity, which the script would happily print. -/
theorem degenerate_fit_cex :
    tblX9[0]? = some ⟨1, 1, 5, 0, 0⟩ ∧ tblX9[1]? = some ⟨1, 0, 5, 1, 1⟩ ∧
    tblX9[2]? = some ⟨1, -1, 5, 0, 2⟩ ∧
    ((⟨1, 1, 5, 0, 0⟩ : Samp).x = (⟨1, 0, 5, 1, 1⟩ : Samp).x) ∧
    ((⟨1, 0, 5, 1, 1⟩ : Samp).x = (⟨1, -1, 5, 0, 2⟩ : Samp).x) ∧
    apexRefine tblX9 1 = some ⟨0, 0, 0, 0, 0⟩ := by
  refine ⟨by simp [tblX9], by simp [tblX9], by simp [tblX9], by norm_num,
    by norm_num, ?_⟩
  have href : apexRefine tblX9 1 =
      some (apexOf ⟨1, 1, 5, 0, 0⟩ ⟨1, 0, 5, 1, 1⟩ ⟨1, -1, 5, 0, 2⟩) :=
    apexRefine_eq tblX9 1 ⟨1, 1, 5, 0, 0⟩ ⟨1, 0, 5, 1, 1⟩ ⟨1, -1, 5, 0, 2⟩
      (by norm_num) (by simp [tblX9]) (by simp [tblX9]) (by simp [tblX9])
      (by simp [tblX9])
  rw [href]
  norm_num [apexOf, lagrange3, Quad.eval, EventRec.mk.injEq]

/-- Claim C9 (amended): the source has no degeneracy guard — whenever
the three bracket rows exist, apex refinement returns a numeric record,
coincident interpolation abscissas included; the Lagrange denominator
(x0-x1)·(x0-x2) is then zero (zero division: NaN/Infinity in IEEE,
junk values in the exact model), and no DegenerateFit error exists. -/
theorem apexRefine_degenerate (tbl : List Samp) (m : Nat) (s0 s1 s2 : Samp)
    (hm : 1 ≤ m) (hm2 : m + 1 < tbl.length)
    (g0 : tbl[m - 1]? = some s0) (g1 : tbl[m]? = some s1)
    (g2 : tbl[m + 1]? = some s2) (hxx : s0.x = s1.x) :
    (s0.x - s1.x) * (s0.x - s2.x) = 0 ∧
      ∃ r, apexRefine tbl (m : ℤ) = some r := by
  refine ⟨by rw [hxx]; ring, ?_⟩
  exact ⟨apexOf s0 s1 s2, apexRefine_eq tbl m s0 s1 s2 hm hm2 g0 g1 g2⟩

/-- Concrete degenerate bracket for the C9 witness. -/
def tblW9 : List Samp :=
  [⟨2, 3, 7, 1, 0⟩, ⟨2, 1, 7, 4, 1⟩, ⟨2, -2, 7, 2, 2⟩]

/-- Witness for the amended C9 on `tblW9` with m = 1. -/
theorem apexRefine_degenerate_witness :
    (1 ≤ 1 ∧ 1 + 1 < tblW9.length ∧
      tblW9[0]? = some ⟨2, 3, 7, 1, 0⟩ ∧ tblW9[1]? = some ⟨2, 1, 7, 4, 1⟩ ∧
      tblW9[2]? = some ⟨2, -2, 7, 2, 2⟩ ∧
      ((⟨2, 3, 7, 1, 0⟩ : Samp).x = (⟨2, 1, 7, 4, 1⟩ : Samp).x)) ∧
    (((⟨2, 3, 7, 1, 0⟩ : Samp).x - (⟨2, 1, 7, 4, 1⟩ : Samp).x) *
        ((⟨2, 3, 7, 1, 0⟩ : Samp).x - (⟨2, -2, 7, 2, 2⟩ : Samp).x) = 0 ∧
      ∃ r, apexRefine tblW9 ((1 : Nat) : ℤ) = some r) :=
  ⟨⟨by norm_num, by simp [tblW9], by simp [tblW9], by simp [tblW9],
      by simp [tblW9], by norm_num⟩,
    apexRefine_degenerate tblW9 1 ⟨2, 3, 7, 1, 0⟩ ⟨2, 1, 7, 4, 1⟩
      ⟨2, -2, 7, 2, 2⟩ (by norm_num) (by simp [tblW9]) (by simp [tblW9])
      (by simp [tblW9]) (by simp [tblW9]) (by norm_num)⟩

/-! ## Claim C10 -/

/-- Claim C10 (confirmed): when the walk breaks with the apex counter
still at its initial value m = 0, or with truncation index n < 2, the
refinement stages index the table at -1 (and -2), which Python silently
resolves to rows counted from the END of the table; a numeric event
record built from those unrelated rows is returned and no error of any
kind is raised. -/
theorem refine_negative_indexing (tbl : List Samp) (n m : Nat)
    (hscan : scan tbl = ScanOut.brk n m) (hlen : 2 ≤ tbl.length) :
    (m = 0 → ∃ sL s0 s1, tbl[tbl.length - 1]? = some sL ∧
      tbl[0]? = some s0 ∧ tbl[1]? = some s1 ∧
      apexRefine tbl (m : ℤ) = some (apexOf sL s0 s1)) ∧
    (n = 0 → ∃ sA sB s0, tbl[tbl.length - 2]? = some sA ∧
      tbl[tbl.length - 1]? = some sB ∧ tbl[0]? = some s0 ∧
      impactRefine tbl (n : ℤ) = some (impactOf sA sB s0)) ∧
    (n = 1 → ∃ sB s0 s1, tbl[tbl.length - 1]? = some sB ∧
      tbl[0]? = some s0 ∧ tbl[1]? = some s1 ∧
      impactRefine tbl (n : ℤ) = some (impactOf sB s0 s1)) := by
  refine ⟨?_, ?_, ?_⟩
  · intro hm
    subst hm
    exact apexRefine_zero tbl hlen
  · intro hn
    subst hn
    exact impactRefine_zero tbl hlen
  · intro hn
    subst hn
    exact impactRefine_one tbl hlen

/-- Concrete table for the C10 witness: the walk breaks at row 2 with
m = 0. -/
def tblW10 : List Samp :=
  [⟨1, -2, 0, 4, 0⟩, ⟨1, -3, 1, 2, 1⟩, ⟨1, -4, 2, -1, 2⟩, ⟨1, -5, 3, -3, 3⟩]

/-- Witness for C10 on `tblW10` (the m = 0 branch is the live one). -/
theorem refine_negative_indexing_witness :
    (scan tblW10 = ScanOut.brk 2 0 ∧ 2 ≤ tblW10.length) ∧
    ((0 : Nat) = 0 → ∃ sL s0 s1, tblW10[tblW10.length - 1]? = some sL ∧
      tblW10[0]? = some s0 ∧ tblW10[1]? = some s1 ∧
      apexRefine tblW10 ((0 : Nat) : ℤ) = some (apexOf sL s0 s1)) :=
  ⟨⟨by norm_num [scan, tblW10, scanGo], by simp [tblW10]⟩,
    (refine_negative_indexing tblW10 2 0
      (by norm_num [scan, tblW10, scanGo]) (by simp [tblW10])).1⟩
